import Mathlib

/-!
Verification development for AlcheMark's `FormatterMD` (src/alchemark_ai/formatter/formatter_md.py).

This file gives a shallow embedding of the formatter core and proves / refutes the
frozen claims about it.

Conventions of the embedding:

* Python strings are modelled as `Str := List Char`.
* The three regular expressions of the formatter (`_extract_tables`, `_extract_images`,
  and the `re.sub` image-rewrite pattern) are compiled by hand into executable scanners.
  Each pattern is alternation-free character-class / literal / lazy-dot machinery, so
  Python's backtracking resolves deterministically; the derivation is documented at each
  definition.
* External collaborators (tiktoken's `encode`, langdetect's `detect`, hashlib's
  `md5(...).hexdigest()`, and the title/list/link scanner whose output fields no claim
  mentions) are passed in as an explicit record of functions `Ext`, mirroring that they
  are opaque pure calls from the formatter's point of view.
* The pydantic models package (`alchemark_ai/models`) is not among the provided sources;
  the record shapes below are modelled from the spec's §3 data model and the shapes used
  by the test-suite mocks.  In particular the output `Image.base64` field is
  `Option Str`, matching the spec's `payload: Optional[string]`.
* `FormatterMD.format` mutates `item.text` in place (`item.text = re.sub(...)`); the
  embedding makes this state explicit: `formatItem` returns both the produced
  `FormattedResult` and the post-call state of the input record.
-/

namespace AlcheMark

abbrev Str := List Char

/-- Python's default `str.strip()` whitespace set (the ASCII part used by the formatter's
`item.text.strip()` truthiness test): space, tab, newline, carriage return, vertical tab,
form feed. -/
def pyIsSpace (c : Char) : Bool :=
  c = ' ' || c = '\t' || c = '\n' || c = '\r' || c = Char.ofNat 11 || c = Char.ofNat 12

/-- Python `str.strip()`: drop leading and trailing whitespace. -/
def pyStrip (t : Str) : Str :=
  ((t.dropWhile pyIsSpace).reverse.dropWhile pyIsSpace).reverse

/-- Match a literal string at the head of the input, returning the rest on success. -/
def dropLit : Str → Str → Option Str
  | [], t => some t
  | _ :: _, [] => none
  | l :: ls, c :: cs => if c = l then dropLit ls cs else none

/-- The shared data-URI tail of both image-regex alternatives:
`data:image\/[^;]+;base64,[^X]+X` where `X` is the closing delimiter (`)` for the
markdown alternative, `"` for the HTML alternative).

`[^;]+` is a greedy negated class followed by the literal `;`: backtracking can only
stop at the first `;`, so it is `takeWhile (· ≠ ';')` requiring a non-empty result.
Likewise `[^X]+X` is `takeWhile (· ≠ X)` (non-empty) followed by the delimiter.
Returns the capture group (everything up to, excluding, the delimiter) and the rest of
the input after the delimiter. -/
def parseDataUri (endc : Char) (t : Str) : Option (Str × Str) :=
  match dropLit "data:image/".toList t with
  | none => none
  | some t1 =>
    let s := t1.takeWhile (fun c => c ≠ ';')
    if s = [] then none else
    match t1.dropWhile (fun c => c ≠ ';') with
    | [] => none
    | _ :: t2 =>  -- the dropped head is the first `;`
      match dropLit "base64,".toList t2 with
      | none => none
      | some t3 =>
        let b := t3.takeWhile (fun c => c ≠ endc)
        if b = [] then none else
        match t3.dropWhile (fun c => c ≠ endc) with
        | [] => none
        | _ :: t4 =>  -- the dropped head is the delimiter `endc`
          some ("data:image/".toList ++ s ++ ";base64,".toList ++ b, t4)

/-- Whether `.` matches a character: everything except newline, or everything under
`re.DOTALL`. -/
def dotOk (dotAll : Bool) (c : Char) : Bool := dotAll || c ≠ '\n'

/-- The closing attempt of the markdown-image alternative at the current offset:
`\]\((data:image\/[^;]+;base64,[^)]+)\)`. -/
def mdClose : Str → Option (Str × Str)
  | c1 :: c2 :: u => if c1 = ']' ∧ c2 = '(' then parseDataUri ')' u else none
  | _ => none

/-- The lazy middle of the markdown-image alternative: having consumed `![`, the engine
runs `.*?\]\((data:image\/[^;]+;base64,[^)]+)\)`.  Laziness means: at each offset first
try to close with `](<data-uri>)`; only if that fails consume one `.`-matchable character
and move on.  Returns the capture group and the rest after the final `)`. -/
def mdLazy (dotAll : Bool) : Str → Option (Str × Str)
  | [] => none
  | c :: t =>
    match mdClose (c :: t) with
    | some gr => some gr
    | none => if dotOk dotAll c then mdLazy dotAll t else none

/-- Try the markdown-image alternative
`!\[.*?\]\((data:image\/[^;]+;base64,[^)]+)\)` at the current position. -/
def tryMd (dotAll : Bool) : Str → Option (Str × Str)
  | c1 :: c2 :: t => if c1 = '!' ∧ c2 = '[' then mdLazy dotAll t else none
  | _ => none

/-- After `<img` and `j` characters consumed by the first `[^>]*`, try
`src="(data:image\/[^;]+;base64,[^"]+)"[^>]*>`. -/
def tryHtmlAt (t : Str) (j : Nat) : Option (Str × Str) :=
  match dropLit "src=\"".toList (t.drop j) with
  | none => none
  | some t1 =>
    match parseDataUri '"' t1 with
    | none => none
    | some (g, t2) =>
      -- trailing `[^>]*>`: skip to the first `>` and consume it
      match t2.dropWhile (fun c => c ≠ '>') with
      | [] => none
      | _ :: t3 => some (g, t3)

/-- Greedy backtracking for the first `[^>]*` of the HTML alternative: try the longest
number of consumed characters first, then shrink. -/
def tryHtmlSearch (t : Str) : Nat → Option (Str × Str)
  | 0 => tryHtmlAt t 0
  | j + 1 =>
    match tryHtmlAt t (j + 1) with
    | some res => some res
    | none => tryHtmlSearch t j

/-- Try the HTML-image alternative
`<img[^>]*src="(data:image\/[^;]+;base64,[^"]+)"[^>]*>` at the current position.
`[^>]*` can consume at most the maximal `>`-free run after `<img`. -/
def tryHtml (t : Str) : Option (Str × Str) :=
  match dropLit "<img".toList t with
  | none => none
  | some t1 => tryHtmlSearch t1 (t1.takeWhile (fun c => c ≠ '>')).length

/-- The `re.findall` driver for `FormatterMD._extract_images`'s two-alternative pattern
(no DOTALL flag on the findall): scan left to right, at each position try the markdown
alternative then the HTML alternative, emit the pair of capture groups
(the non-participating group is the empty string, as `re.findall` reports it),
and resume after the match.  Fuel is an upper bound on the number of scan steps;
each step strictly consumes input, so `length + 1` suffices. -/
def findallImagesF : Nat → Str → List (Str × Str)
  | 0, _ => []
  | _, [] => []
  | fuel + 1, c :: rest =>
    match tryMd false (c :: rest) with
    | some (g, r) => (g, []) :: findallImagesF fuel r
    | none =>
      match tryHtml (c :: rest) with
      | some (g, r) => ([], g) :: findallImagesF fuel r
      | none => findallImagesF fuel rest

/-- Model of `FormatterMD._extract_images` (lines 57–63): the list of `(group 1, group 2)`
pairs returned by `re.findall` of the image pattern. -/
def extract_images (t : Str) : List (Str × Str) := findallImagesF (t.length + 1) t

/-- The `re.sub` driver for the reference-mode rewrite (line 94):
`re.sub(r'!\[.*?\]\((data:image\/[^;]+;base64,[^)]+)\)', repl, text, flags=re.DOTALL)`.
Replaces every non-overlapping occurrence (leftmost first, resuming after each match,
never rescanning the replacement) with `rep`. -/
def subMdF : Nat → Str → Str → Str
  | 0, _, t => t
  | _, _, [] => []
  | fuel + 1, rep, c :: rest =>
    match tryMd true (c :: rest) with
    | some (_, r) => rep ++ subMdF fuel rep r
    | none => c :: subMdF fuel rep rest

/-- The reference-mode text rewrite: all markdown-syntax inline images replaced by `rep`. -/
def subMd (t : Str) (rep : Str) : Str := subMdF (t.length + 1) rep t

/-- Whether any position of the text starts a (DOTALL) markdown-image match. -/
def hasMdF : Nat → Str → Bool
  | 0, _ => false
  | _, [] => false
  | fuel + 1, c :: rest => (tryMd true (c :: rest)).isSome || hasMdF fuel rest

/-- Whether the DOTALL markdown-image pattern matches anywhere in the text. -/
def hasMd (t : Str) : Bool := hasMdF (t.length + 1) t

/-! ## The table pattern

`_extract_tables` (lines 47–55) finds
`(?:\|[^\n]*\|\n)+(?:\|[-:| ]*\|\n)(?:\|[^\n]*\|\n)+`.

A *pipe line* is `\|[^\n]*\|\n`: a `|`, a newline-free body whose last character is `|`,
then the newline.  A *separator line* is a pipe line whose interior characters are all in
`[-:| ]` (every separator line is itself a pipe line).  Starting at a position, the three
greedy pieces with backtracking match exactly when the maximal run of consecutive pipe
lines has length `m ≥ 3` and some line at (1-based) position `2 … m-1` of the run is a
separator; the matched text is then always the whole run (the final `+` is greedy), and
scanning resumes after it. -/

/-- Parse one `\|[^\n]*\|\n` pipe line, returning (line incl. newline, rest). -/
def pipeLine? (t : Str) : Option (Str × Str) :=
  match t with
  | c :: t1 =>
    if c = '|' then
      let body := t1.takeWhile (fun x => x ≠ '\n')
      match t1.dropWhile (fun x => x ≠ '\n') with
      | [] => none
      | _ :: t2 =>  -- the dropped head is the newline
        if body.getLast? = some '|' then some ('|' :: body ++ ['\n'], t2) else none
    else none
  | [] => none

/-- Maximal run of consecutive pipe lines. -/
def chainF : Nat → Str → List Str × Str
  | 0, t => ([], t)
  | fuel + 1, t =>
    match pipeLine? t with
    | some (ln, r) =>
      let pr := chainF fuel r
      (ln :: pr.1, pr.2)
    | none => ([], t)

/-- Characters allowed in the interior of a separator line (`[-:| ]`). -/
def sepChar (c : Char) : Bool := c = '-' || c = ':' || c = '|' || c = ' '

/-- Whether a parsed pipe line (shape `'|' :: body ++ ['\n']`) is a separator line. -/
def isSepLine (ln : Str) : Bool :=
  match ln with
  | c :: t => c = '|' && t.dropLast.dropLast.all sepChar
  | [] => false

/-- The `re.findall` driver for the table pattern. -/
def tablesF : Nat → Str → List Str
  | 0, _ => []
  | _, [] => []
  | fuel + 1, c :: rest =>
    let pr := chainF (c :: rest).length (c :: rest)
    if 3 ≤ pr.1.length ∧ (pr.1.drop 1).dropLast.any isSepLine then
      pr.1.flatten :: tablesF fuel pr.2
    else tablesF fuel rest

/-- Model of `FormatterMD._extract_tables` (lines 47–55): the textual table blocks in
document order. -/
def extract_tables (t : Str) : List Str := tablesF (t.length + 1) t

/-! ## Data model

Modelled from the spec: the `alchemark_ai/models` package (pydantic records `PDFResult`,
`Table`, `Image`, `FormattedResult`, …) is not among the provided sources; the shapes
below follow §3 of the spec and the mocks in `src/tests/test_pdf2md.py`.  Fields the
formatter never reads (`toc_items`, `words`, `graphics`, the bibliographic metadata) are
omitted; bounding-box coordinates are carried opaquely as four integers. -/

structure BBox where
  x0 : Int
  y0 : Int
  x1 : Int
  y1 : Int
deriving DecidableEq, Repr

/-- Modelled from the spec: `StructuralTable` — positional only. -/
structure StructTable where
  bbox : BBox
  rows : Int
  columns : Int
deriving DecidableEq, Repr

/-- Modelled from the spec: `StructuralImage` — positional only. -/
structure StructImage where
  number : Int
  bbox : BBox
  width : Int
  height : Int
deriving DecidableEq, Repr

/-- Modelled from the spec: the part of `PDFResult.metadata` the formatter reads. -/
structure PDFMetadata where
  file_path : Str
  page : Int
  page_count : Int
deriving DecidableEq, Repr

/-- Modelled from the spec: `PageInput` / `PDFResult` as consumed by `FormatterMD`. -/
structure PDFResult where
  metadata : PDFMetadata
  tables : List StructTable
  images : List StructImage
  text : Str
deriving DecidableEq, Repr

/-- Modelled from the spec: `Table (output)` — `StructuralTable` plus optional content. -/
structure Table where
  bbox : BBox
  rows : Int
  columns : Int
  content : Option Str
deriving DecidableEq, Repr

/-- Modelled from the spec: `Image (output)` — `StructuralImage` plus
`payload: Optional[string]` (field name `base64` in the source) and
`contentHash: Optional[string]` (field name `hash`). -/
structure Image where
  number : Int
  bbox : BBox
  width : Int
  height : Int
  base64 : Option Str
  hash : Option Str
deriving DecidableEq, Repr

structure Link where
  text : Str
  url : Str
deriving DecidableEq, Repr

/-- Output of `_count_markdown_elements`. -/
structure MdElements where
  titles : List Str
  lists : List Str
  links : List Link
deriving DecidableEq, Repr

/-- Modelled from the spec: `FormattedMetadata`. -/
structure FormattedMetadata where
  file_path : Str
  page : Int
  page_count : Int
  text_length : Nat
deriving DecidableEq, Repr

/-- Modelled from the spec: `FormattedElements`. -/
structure FormattedElements where
  tables : List Table
  images : List Image
  titles : List Str
  lists : List Str
  links : List Link
deriving DecidableEq, Repr

/-- Modelled from the spec: `FormattedPage` / `FormattedResult`. -/
structure FormattedResult where
  metadata : FormattedMetadata
  elements : FormattedElements
  text : Str
  tokens : Nat
  language : Option Str
deriving DecidableEq, Repr

/-- The formatter's external collaborators, passed as opaque pure functions:
`countMd` is `_count_markdown_elements` (its title/list/link output fields are not
the subject of any claim and flow unchanged into the result); `tok` is
`len(self.encoding.encode(·))` (tiktoken); `detect` is langdetect's `detect`, which
may raise (modelled as `Except`); `md5hex` is `hashlib.md5(·.encode()).hexdigest()`. -/
structure Ext where
  countMd : Str → MdElements
  tok : Str → Nat
  detect : Str → Except Unit Str
  md5hex : Str → Str

/-- Lines 88–89 of `format`: the textual payload paired with structural image `i`.
Line 88's binding is immediately overwritten by line 89, which yields group 1 of the
`i`-th findall tuple when it is in range and non-empty, and `""` otherwise. -/
def grp1At (exI : List (Str × Str)) (i : Nat) : Str :=
  match exI.get? i with
  | some pr => if pr.1 = [] then [] else pr.1
  | none => []

/-- The `Image` record appended at lines 98–105: the positional fields of the
structural image; `base64` is the paired payload, truncated (when non-empty, line 96)
to `payload.split("=")[0] + "="`; `hash` is the md5 hex digest of the non-empty
payload, else `None` (line 90). -/
def emitImg (H : Str → Str) (c : Str) (img : StructImage) : Image :=
  { number := img.number, bbox := img.bbox, width := img.width, height := img.height
    base64 := some (if c = [] then c else c.takeWhile (fun x => x ≠ '=') ++ ['='])
    hash := if c = [] then none else some (H c) }

/-- The loop over `item.images` (lines 87–105), threading the page text through the
reference-mode `re.sub` rewrite of line 94: for each structural image, if the paired
payload is non-empty and `keep_images_inline` is false, `item.text` is re-assigned to
the substituted text with replacement `f'[IMAGE]({image_hash})'`.  Returns the emitted
`Image` records and the final text. -/
def imagesLoop (keep : Bool) (H : Str → Str) (exI : List (Str × Str)) :
    List StructImage → Nat → Str → List Image × Str
  | [], _, text => ([], text)
  | image :: rest, i, text =>
    let c := grp1At exI i
    let text' := if c = [] then text
      else if keep then text
      else subMd text ("[IMAGE](".toList ++ H c ++ [')'])
    let pr := imagesLoop keep H exI rest (i + 1) text'
    (emitImg H c image :: pr.1, pr.2)

/-- The loop over `item.tables` (lines 74–82): the `i`-th structural table gets
`extracted_tables[i] if i < len(extracted_tables) else None` as its content
(which is exactly `List.get?`). -/
def tablesLoop (exT : List Str) : List StructTable → Nat → List Table
  | [], _ => []
  | tb :: rest, i =>
    { bbox := tb.bbox, rows := tb.rows, columns := tb.columns, content := exT.get? i }
      :: tablesLoop exT rest (i + 1)

/-- The per-page body of `FormatterMD.format` (lines 69–132).  Besides the produced
`FormattedResult`, the second component is the state of the input record after the
call: Python mutates `item.text` in place at line 94, every other field is left
untouched.  The `if … isEmpty` guards mirror the truthiness tests
`if hasattr(item, 'tables') and item.tables:` / `… item.images:` (the `hasattr` test is
always true for the pydantic model).  `text_length`, `tokens` and the language guard
read the *final* (possibly rewritten) text, as the Python does after the loop;
`item.text or ""` is the identity since `text` is always a string here. -/
def formatItem (keep : Bool) (ext : Ext) (item : PDFResult) : FormattedResult × PDFResult :=
  let md := ext.countMd item.text
  let exT := extract_tables item.text
  let exI := extract_images item.text
  let tablesOut := if item.tables.isEmpty then [] else tablesLoop exT item.tables 0
  let ir := if item.images.isEmpty then ([], item.text)
            else imagesLoop keep ext.md5hex exI item.images 0 item.text
  let finalText := ir.2
  ({ metadata :=
      { file_path := item.metadata.file_path
        page := item.metadata.page
        page_count := item.metadata.page_count
        text_length := if finalText = [] then 0 else finalText.length }
     elements :=
      { tables := tablesOut, images := ir.1
        titles := md.titles, lists := md.lists, links := md.links }
     text := finalText
     tokens := if finalText = [] then 0 else ext.tok finalText
     language :=
       if finalText ≠ [] ∧ pyStrip finalText ≠ [] then
         match ext.detect finalText with
         | .ok l => some l
         | .error _ => none
       else none },
   { item with text := finalText })

/-- The raw constructor argument of `FormatterMD`: Python lets any value through,
so the batch is either not a list at all, or a list whose elements may or may not be
`PDFResult` instances. -/
inductive RawItem where
  | page (p : PDFResult)
  | other
deriving DecidableEq

inductive RawContent where
  | notList
  | ofList (items : List RawItem)
deriving DecidableEq

/-- Model of `FormatterMD._check_content` (lines 14–22): `ValueError` if the content is not a
list, if any element is not a `PDFResult`, or if the list is empty.  (Python raises at
the first offending element; the message is the same either way.) -/
def check_content : RawContent → Except Str Unit
  | .notList => .error "[FORMATTER] Content must be a List of PDFResult.".toList
  | .ofList items =>
    if items.any (fun it => match it with | .page _ => false | .other => true) then
      .error "[FORMATTER] Content must be a List of PDFResult.".toList
    else if items.isEmpty then
      .error "[FORMATTER] Content is empty.".toList
    else .ok ()

/-- The `PDFResult` elements of a validated batch. -/
def pagesOf : RawContent → List PDFResult
  | .notList => []
  | .ofList items => items.filterMap (fun it => match it with | .page p => some p | .other => none)

/-- Model of `FormatterMD.format` (lines 65–136): validate, then process each page.  The outer
`try/except` re-wraps any raised `ValueError` with the `[FORMATTER] Error formatting
content:` preamble.  The second component of the result is the post-call state of the
input records (Python's in-place mutation, see `formatItem`). -/
def format (keep : Bool) (ext : Ext) (content : RawContent) :
    Except Str (List FormattedResult × List PDFResult) :=
  match check_content content with
  | .error e => .error ("[FORMATTER] Error formatting content: ".toList ++ e)
  | .ok _ =>
    let rs := (pagesOf content).map (formatItem keep ext)
    .ok (rs.map Prod.fst, rs.map Prod.snd)

/-! ## Shapes used in the theorem statements -/

/-- A well-formed data-URI payload `data:image/<s>;base64,<b>` as captured by
group 1 / group 2 of the image pattern. -/
def mdPayload (s b : Str) : Str :=
  "data:image/".toList ++ s ++ ";base64,".toList ++ b

/-- A markdown-syntax inline image `![<alt>](<payload>)`. -/
def mdImg (alt s b : Str) : Str :=
  '!' :: '[' :: (alt ++ ']' :: '(' :: (mdPayload s b ++ [')']))

/-- An HTML inline image `<img src="<payload>">`. -/
def htmlImg (q : Str) : Str :=
  "<img src=\"".toList ++ q ++ "\">".toList

/-- The reference token `[IMAGE](<hash>)` substituted in reference mode (line 94). -/
def imgTok (h : Str) : Str := "[IMAGE](".toList ++ h ++ [')']

/-! ## Concrete fixtures for counterexamples and witnesses -/

/-- A concrete instantiation of the external collaborators: trivial element scanner and
tokenizer, always-failing language detector, and an injective "hash" that tags its
input (the md5 digest is only ever compared for equality by the claims, so any
concrete function exercises the same code paths). -/
def extC : Ext :=
  { countMd := fun _ => ⟨[], [], []⟩
    tok := fun _ => 0
    detect := fun _ => .error ()
    md5hex := fun s => 'h' :: s }

/-- A structural image fixture. -/
def imgFix (n : Int) : StructImage := { number := n, bbox := ⟨0, 0, 1, 1⟩, width := 3, height := 4 }

/-- Page fixture: one markdown-syntax inline image in the text but *zero* structural
images. -/
def itemNoStruct : PDFResult :=
  { metadata := { file_path := [], page := 1, page_count := 1 }
    tables := []
    images := []
    text := "see ![a](data:image/png;base64,QUJD) here".toList }

/-- Page fixture: no textual image at all, but one structural image. -/
def itemNoTextualImg : PDFResult :=
  { metadata := { file_path := [], page := 1, page_count := 1 }
    tables := []
    images := [imgFix 1]
    text := "hello".toList }

/-- Page fixture: one HTML-tag textual image paired with one structural image. -/
def itemHtmlImg : PDFResult :=
  { metadata := { file_path := [], page := 1, page_count := 1 }
    tables := []
    images := [imgFix 1]
    text := "<img src=\"data:image/png;base64,QUJD\">".toList }

/-- Page fixture: one markdown textual image paired with one structural image. -/
def itemMdImg : PDFResult :=
  { metadata := { file_path := [], page := 1, page_count := 1 }
    tables := []
    images := [imgFix 1]
    text := "x ![a](data:image/png;base64,QUJD) y".toList }

/-- Page fixture for the inline-keep truncation example of the spec:
payload `data:image/png;base64,AAA=BBB`. -/
def itemKeepTrunc : PDFResult :=
  { metadata := { file_path := [], page := 1, page_count := 1 }
    tables := []
    images := [imgFix 1]
    text := "![x](data:image/png;base64,AAA=BBB)".toList }

/-- Page fixture: one structural table, no textual table block. -/
def itemTableNoText : PDFResult :=
  { metadata := { file_path := [], page := 1, page_count := 1 }
    tables := [{ bbox := ⟨0, 0, 2, 2⟩, rows := 2, columns := 2 }]
    images := []
    text := "no tables here".toList }

/-- Page fixture: whitespace-only text. -/
def itemBlank : PDFResult :=
  { metadata := { file_path := [], page := 1, page_count := 1 }
    tables := []
    images := []
    text := [' ', '\n'] }

/-- Page fixture: one markdown image followed by an HTML image with the same payload,
paired with one structural image. -/
def itemMdPlusHtml : PDFResult :=
  { metadata := { file_path := [], page := 1, page_count := 1 }
    tables := []
    images := [imgFix 1]
    text := ("see ![a](data:image/png;base64,QUJD)"
             ++ " and <img src=\"data:image/png;base64,QUJD\"> end").toList }

/-- Page fixture: two markdown images, two structural images, nothing adversarial. -/
def itemTwoMd : PDFResult :=
  { metadata := { file_path := [], page := 1, page_count := 1 }
    tables := []
    images := [imgFix 1, imgFix 2]
    text := "![a](data:image/p;base64,AA) ![b](data:image/q;base64,BB)".toList }

/-- The adversarial page for C10: two markdown-syntax inline images, each paired with a
structural image, plus a stray leading `!` and a stray unmatched `](data:image/…)`
remnant.  The first substitution pass glues the stray `!` to the replacement token's
`[`, creating a *new* markdown-image match that the second pass rewrites with the
second image's hash. -/
def itemAdv : PDFResult :=
  { metadata := { file_path := [], page := 1, page_count := 1 }
    tables := []
    images := [imgFix 1, imgFix 2]
    text := "!![a](data:image/s;base64,x) ![b](data:image/t;base64,y) ](data:image/u;base64,z)".toList }

/-! ## Helper lemmas about the scanners -/

theorem takeWhile_append_all {p : Char → Bool} :
    ∀ {xs : Str} (ys : Str), (∀ x ∈ xs, p x = true) →
      (xs ++ ys).takeWhile p = xs ++ ys.takeWhile p := by
  intro xs
  induction xs with
  | nil => intro ys _; simp
  | cons a xs ih =>
    intro ys h
    have ha : p a = true := h a (by simp)
    simp only [List.cons_append, List.takeWhile_cons, ha, if_true]
    rw [ih ys (fun x hx => h x (by simp [hx]))]

theorem dropWhile_append_all {p : Char → Bool} :
    ∀ {xs : Str} (ys : Str), (∀ x ∈ xs, p x = true) →
      (xs ++ ys).dropWhile p = ys.dropWhile p := by
  intro xs
  induction xs with
  | nil => intro ys _; simp
  | cons a xs ih =>
    intro ys h
    have ha : p a = true := h a (by simp)
    simp only [List.cons_append, List.dropWhile_cons, ha, if_true]
    exact ih ys (fun x hx => h x (by simp [hx]))

theorem dropWhile_all_nil {p : Char → Bool} {xs : Str} (h : ∀ x ∈ xs, p x = true) :
    xs.dropWhile p = [] := by
  have := @dropWhile_append_all p xs [] h
  simpa using this

theorem dropWhile_suffix' (p : Char → Bool) : ∀ (t : Str), t.dropWhile p <:+ t := by
  intro t
  induction t with
  | nil => simp
  | cons a t ih =>
    by_cases ha : p a = true
    · simp only [List.dropWhile_cons, ha, if_true]
      exact ih.trans (List.suffix_cons a t)
    · rw [List.dropWhile_cons, if_neg ha]

theorem dropLit_eq_some : ∀ {ls t r : Str}, dropLit ls t = some r ↔ t = ls ++ r := by
  intro ls
  induction ls with
  | nil =>
    intro t r
    simp [dropLit]
  | cons l ls ih =>
    intro t r
    cases t with
    | nil => simp [dropLit]
    | cons c cs =>
      by_cases hc : c = l
      · subst hc
        simp only [dropLit, if_pos rfl, List.cons_append, List.cons.injEq, true_and]
        exact ih
      · simp only [dropLit, if_neg hc, List.cons_append, List.cons.injEq]
        constructor
        · intro h; cases h
        · rintro ⟨h1, -⟩; exact absurd h1 hc

theorem dropLit_self (ls t : Str) : dropLit ls (ls ++ t) = some t :=
  dropLit_eq_some.mpr rfl

theorem dropLit_rest_length {ls t r : Str} (h : dropLit ls t = some r) :
    r.length + ls.length = t.length := by
  have := dropLit_eq_some.mp h
  subst this
  simp [Nat.add_comm]

theorem dropLit_suffix {ls t r : Str} (h : dropLit ls t = some r) : r <:+ t := by
  have := dropLit_eq_some.mp h
  subst this
  exact List.suffix_append ls r

theorem parseDataUri_shape (endc : Char) {s b : Str} (rest : Str)
    (hs : s ≠ []) (hs2 : ∀ c ∈ s, c ≠ ';')
    (hb : b ≠ []) (hb2 : ∀ c ∈ b, c ≠ endc) :
    parseDataUri endc ("data:image/".toList ++ (s ++ (";base64,".toList ++ (b ++ endc :: rest))))
      = some (mdPayload s b, rest) := by
  have h1 : (";base64,".toList : Str) ++ (b ++ endc :: rest)
      = ';' :: ("base64,".toList ++ (b ++ endc :: rest)) := rfl
  have hsP : ∀ x ∈ s, (decide (x ≠ ';')) = true := fun x hx => by simpa using hs2 x hx
  have hbP : ∀ x ∈ b, (decide (x ≠ endc)) = true := fun x hx => by simpa using hb2 x hx
  have htake1 : (s ++ (";base64,".toList ++ (b ++ endc :: rest))).takeWhile
      (fun c => c ≠ ';') = s := by
    rw [h1, takeWhile_append_all _ hsP]
    simp
  have hdrop1 : (s ++ (";base64,".toList ++ (b ++ endc :: rest))).dropWhile
      (fun c => c ≠ ';') = ';' :: ("base64,".toList ++ (b ++ endc :: rest)) := by
    rw [h1, dropWhile_append_all _ hsP]
    simp
  have htake3 : (b ++ endc :: rest).takeWhile (fun c => c ≠ endc) = b := by
    rw [takeWhile_append_all _ hbP]
    simp
  have hdrop3 : (b ++ endc :: rest).dropWhile (fun c => c ≠ endc) = endc :: rest := by
    rw [dropWhile_append_all _ hbP]
    simp
  simp only [parseDataUri, dropLit_self, htake1, hdrop1, htake3, hdrop3, if_neg hs, if_neg hb]
  simp [mdPayload]

theorem parseDataUri_rest {endc : Char} {t g r : Str}
    (h : parseDataUri endc t = some (g, r)) : r <:+ t ∧ r.length < t.length := by
  rcases hd : dropLit "data:image/".toList t with _ | t1
  · simp only [parseDataUri, hd] at h
    exact Option.noConfusion h
  · simp only [parseDataUri, hd] at h
    by_cases hsE : t1.takeWhile (fun c => c ≠ ';') = []
    · rw [if_pos hsE] at h; exact Option.noConfusion h
    · rw [if_neg hsE] at h
      rcases hd2 : t1.dropWhile (fun c => c ≠ ';') with _ | ⟨c2, t2⟩
      · simp only [hd2] at h
        exact Option.noConfusion h
      · simp only [hd2] at h
        rcases hd3 : dropLit "base64,".toList t2 with _ | t3
        · simp only [hd3] at h
          exact Option.noConfusion h
        · simp only [hd3] at h
          by_cases hbE : t3.takeWhile (fun c => c ≠ endc) = []
          · rw [if_pos hbE] at h; exact Option.noConfusion h
          · rw [if_neg hbE] at h
            rcases hd4 : t3.dropWhile (fun c => c ≠ endc) with _ | ⟨c4, t4⟩
            · simp only [hd4] at h
              exact Option.noConfusion h
            · simp only [hd4] at h
              have hr : r = t4 := by
                have := h
                simp only [Option.some.injEq, Prod.mk.injEq] at this
                exact this.2.symm
              have sfx1 : t1 <:+ t := dropLit_suffix hd
              have len1 := dropLit_rest_length hd
              have sfx2 : (c2 :: t2) <:+ t1 := hd2 ▸ dropWhile_suffix' _ t1
              have sfx2' : t2 <:+ t1 := ((t2.suffix_cons c2).trans sfx2)
              have len2 : t2.length + 1 ≤ t1.length := by
                have := sfx2.length_le
                simpa using this
              have sfx3 : t3 <:+ t2 := dropLit_suffix hd3
              have len3 := dropLit_rest_length hd3
              have sfx4 : (c4 :: t4) <:+ t3 := hd4 ▸ dropWhile_suffix' _ t3
              have sfx4' : t4 <:+ t3 := ((t4.suffix_cons c4).trans sfx4)
              have len4 : t4.length + 1 ≤ t3.length := by
                have := sfx4.length_le
                simpa using this
              have hrl : r.length = t4.length := by rw [hr]
              refine ⟨hr ▸ ((sfx4'.trans sfx3).trans (sfx2'.trans sfx1)), ?_⟩
              have e1 : ("data:image/".toList : Str).length = 11 := by decide
              have e2 : ("base64,".toList : Str).length = 7 := by decide
              omega

theorem mdClose_cons_ne {c : Char} {t : Str} (hc : c ≠ ']') : mdClose (c :: t) = none := by
  cases t with
  | nil => rfl
  | cons c2 u =>
    simp only [mdClose]
    rw [if_neg (fun hh => hc hh.1)]

theorem mdClose_rest_lt {v g r : Str} (h : mdClose v = some (g, r)) : r.length < v.length := by
  match v with
  | [] => exact absurd h (by simp [mdClose])
  | [c1] => exact absurd h (by simp [mdClose])
  | c1 :: c2 :: u =>
    simp only [mdClose] at h
    split at h
    · have := (parseDataUri_rest h).2
      simp only [List.length_cons]
      omega
    · exact Option.noConfusion h

theorem mdLazy_skip {d : Bool} {c : Char} {t : Str} (hc : c ≠ ']') (hd : dotOk d c = true) :
    mdLazy d (c :: t) = mdLazy d t := by
  simp only [mdLazy, mdClose_cons_ne hc, if_pos hd]

theorem mdLazy_skipAll {d : Bool} {alt : Str} (u : Str)
    (h : ∀ c ∈ alt, c ≠ ']' ∧ dotOk d c = true) :
    mdLazy d (alt ++ u) = mdLazy d u := by
  induction alt with
  | nil => simp
  | cons a alt ih =>
    have ha := h a (by simp)
    rw [List.cons_append, mdLazy_skip ha.1 ha.2]
    exact ih (fun c hc => h c (by simp [hc]))

theorem mdLazy_close {d : Bool} {u g r : Str} (hp : parseDataUri ')' u = some (g, r)) :
    mdLazy d (']' :: '(' :: u) = some (g, r) := by
  have hcl : mdClose (']' :: '(' :: u) = some (g, r) := by
    simp [mdClose, hp]
  simp only [mdLazy, hcl]

theorem mdLazy_rest_lt {d : Bool} : ∀ {t g r : Str}, mdLazy d t = some (g, r) →
    r.length < t.length := by
  intro t
  induction t with
  | nil => intro g r h; exact absurd h (by simp [mdLazy])
  | cons c t ih =>
    intro g r h
    simp only [mdLazy] at h
    rcases hcl : mdClose (c :: t) with _ | gr
    · simp only [hcl] at h
      split at h
      · have := ih h
        simp only [List.length_cons]
        omega
      · exact Option.noConfusion h
    · simp only [hcl] at h
      cases h
      exact mdClose_rest_lt hcl

theorem tryMd_cons_ne {d : Bool} {c : Char} {t : Str} (hc : c ≠ '!') :
    tryMd d (c :: t) = none := by
  cases t with
  | nil => rfl
  | cons c2 u =>
    simp only [tryMd]
    rw [if_neg (fun hh => hc hh.1)]

theorem tryMd_rest_lt {d : Bool} {t g r : Str} (h : tryMd d t = some (g, r)) :
    r.length < t.length := by
  match t with
  | [] => exact absurd h (by simp [tryMd])
  | [c1] => exact absurd h (by simp [tryMd])
  | c1 :: c2 :: u =>
    simp only [tryMd] at h
    split at h
    · have := mdLazy_rest_lt h
      simp only [List.length_cons]
      omega
    · exact Option.noConfusion h

theorem tryMd_shape {d : Bool} {alt s b : Str} (rest : Str)
    (halt : ∀ c ∈ alt, c ≠ ']' ∧ dotOk d c = true)
    (hs : s ≠ []) (hs2 : ∀ c ∈ s, c ≠ ';')
    (hb : b ≠ []) (hb2 : ∀ c ∈ b, c ≠ ')') :
    tryMd d ('!' :: '[' :: (alt ++ ']' :: '(' :: (mdPayload s b ++ ')' :: rest)))
      = some (mdPayload s b, rest) := by
  have e : tryMd d ('!' :: '[' :: (alt ++ ']' :: '(' :: (mdPayload s b ++ ')' :: rest)))
      = mdLazy d (alt ++ ']' :: '(' :: (mdPayload s b ++ ')' :: rest)) := by
    simp [tryMd]
  rw [e, mdLazy_skipAll _ halt]
  apply mdLazy_close
  have := parseDataUri_shape ')' rest hs hs2 hb hb2
  simpa [mdPayload, List.append_assoc] using this

theorem drop_append_plus : ∀ (l1 l2 : Str) (n : Nat), (l1 ++ l2).drop (l1.length + n) = l2.drop n := by
  intro l1
  induction l1 with
  | nil => intro l2 n; simp
  | cons a l1 ih => intro l2 n; simp [Nat.succ_add]

theorem drop_append_le : ∀ (l1 l2 : Str) (n : Nat), n ≤ l1.length →
    (l1 ++ l2).drop n = l1.drop n ++ l2 := by
  intro l1
  induction l1 with
  | nil =>
    intro l2 n hn
    have : n = 0 := by simpa using hn
    simp [this]
  | cons a l1 ih =>
    intro l2 n hn
    cases n with
    | zero => simp
    | succ n => simpa using ih l2 n (by simpa using hn)

theorem tryHtml_nil : tryHtml [] = none := rfl

theorem tryHtml_cons_ne {c : Char} {t : Str} (hc : c ≠ '<') : tryHtml (c :: t) = none := by
  have hlit : ("<img".toList : Str) = '<' :: 'i' :: 'm' :: 'g' :: [] := rfl
  have hdl : dropLit "<img".toList (c :: t) = none := by
    rw [hlit]
    simp only [dropLit]
    rw [if_neg hc]
  simp only [tryHtml, hdl]

theorem tryHtmlAt_rest {t : Str} {j : Nat} {g r : Str} (h : tryHtmlAt t j = some (g, r)) :
    r <:+ t ∧ r.length < t.length := by
  rcases hd : dropLit "src=\"".toList (t.drop j) with _ | t1
  · simp only [tryHtmlAt, hd] at h
    exact Option.noConfusion h
  · simp only [tryHtmlAt, hd] at h
    rcases hp : parseDataUri '"' t1 with _ | ⟨g2, t2⟩
    · simp only [hp] at h
      exact Option.noConfusion h
    · simp only [hp] at h
      rcases hd2 : t2.dropWhile (fun c => c ≠ '>') with _ | ⟨c3, t3⟩
      · simp only [hd2] at h
        exact Option.noConfusion h
      · simp only [hd2] at h
        have hr : r = t3 := by
          have := h
          simp only [Option.some.injEq, Prod.mk.injEq] at this
          exact this.2.symm
        have sfx0 : t.drop j <:+ t := List.drop_suffix j t
        have sfx1 : t1 <:+ t.drop j := dropLit_suffix hd
        have len1 := dropLit_rest_length hd
        have hpr := parseDataUri_rest hp
        have sfx3 : (c3 :: t3) <:+ t2 := hd2 ▸ dropWhile_suffix' _ t2
        have sfx3' : t3 <:+ t2 := (t3.suffix_cons c3).trans sfx3
        have len3 : t3.length + 1 ≤ t2.length := by
          have := sfx3.length_le
          simpa using this
        have lend : (t.drop j).length ≤ t.length := sfx0.length_le
        have e1 : ("src=\"".toList : Str).length = 5 := by decide
        constructor
        · exact hr ▸ ((sfx3'.trans hpr.1).trans (sfx1.trans sfx0))
        · have hrl : r.length = t3.length := by rw [hr]
          have := hpr.2
          omega

theorem tryHtmlSearch_rest {t : Str} : ∀ {n : Nat} {g r : Str},
    tryHtmlSearch t n = some (g, r) → r <:+ t ∧ r.length < t.length := by
  intro n
  induction n with
  | zero => intro g r h; exact tryHtmlAt_rest h
  | succ n ih =>
    intro g r h
    simp only [tryHtmlSearch] at h
    rcases ha : tryHtmlAt t (n + 1) with _ | res
    · rw [ha] at h
      exact ih h
    · rw [ha] at h
      cases h
      exact tryHtmlAt_rest ha

theorem tryHtml_rest {t g r : Str} (h : tryHtml t = some (g, r)) :
    r <:+ t ∧ r.length < t.length := by
  rcases hd : dropLit "<img".toList t with _ | t1
  · simp only [tryHtml, hd] at h
    exact Option.noConfusion h
  · simp only [tryHtml, hd] at h
    have hs := tryHtmlSearch_rest h
    have sfx1 : t1 <:+ t := dropLit_suffix hd
    have len1 := dropLit_rest_length hd
    have e1 : ("<img".toList : Str).length = 4 := by decide
    exact ⟨hs.1.trans sfx1, by have := hs.2; have := sfx1.length_le; omega⟩

theorem tryHtmlSearch_congr {t : Str} (lo : Nat) :
    ∀ n, (∀ j, lo < j → j ≤ lo + n → tryHtmlAt t j = none) →
      tryHtmlSearch t (lo + n) = tryHtmlSearch t lo := by
  intro n
  induction n with
  | zero => intro _; rfl
  | succ n ih =>
    intro h
    have e : lo + (n + 1) = (lo + n) + 1 := rfl
    rw [e]
    simp only [tryHtmlSearch]
    rw [h ((lo + n) + 1) (by omega) (by omega)]
    exact ih (fun j h1 h2 => h j h1 (by omega))

/-- The literal `src="` cannot match anywhere strictly inside the payload-plus-closing-quote
region: its fifth character is a quote, but the payload is quote-free and equals-free,
so neither the alignment on the closing quote (which would need the payload to end with
`src=`) nor any interior alignment can succeed. -/
theorem dropLit_src_none {u : Str} (h : ∀ c ∈ u, c ≠ '"' ∧ c ≠ '=') (Y : Str) :
    dropLit "src=\"".toList (u ++ '"' :: Y) = none := by
  have hlit : ("src=\"".toList : Str) = 's' :: 'r' :: 'c' :: '=' :: '"' :: [] := rfl
  rw [hlit]
  match u with
  | [] =>
    simp only [List.nil_append, dropLit]
    rw [if_neg (by decide : ¬ ('"' : Char) = 's')]
  | [a] =>
    simp only [List.cons_append, List.nil_append, dropLit]
    by_cases ha : a = 's'
    · rw [if_pos ha]
      rw [if_neg (by decide : ¬ ('"' : Char) = 'r')]
    · rw [if_neg ha]
  | [a, a2] =>
    simp only [List.cons_append, List.nil_append, dropLit]
    by_cases ha : a = 's'
    · rw [if_pos ha]
      by_cases ha2 : a2 = 'r'
      · rw [if_pos ha2]
        rw [if_neg (by decide : ¬ ('"' : Char) = 'c')]
      · rw [if_neg ha2]
    · rw [if_neg ha]
  | [a, a2, a3] =>
    simp only [List.cons_append, List.nil_append, dropLit]
    by_cases ha : a = 's'
    · rw [if_pos ha]
      by_cases ha2 : a2 = 'r'
      · rw [if_pos ha2]
        by_cases ha3 : a3 = 'c'
        · rw [if_pos ha3]
          rw [if_neg (by decide : ¬ ('"' : Char) = '=')]
        · rw [if_neg ha3]
      · rw [if_neg ha2]
    · rw [if_neg ha]
  | [a, a2, a3, a4] =>
    simp only [List.cons_append, List.nil_append, dropLit]
    by_cases ha : a = 's'
    · rw [if_pos ha]
      by_cases ha2 : a2 = 'r'
      · rw [if_pos ha2]
        by_cases ha3 : a3 = 'c'
        · rw [if_pos ha3]
          rw [if_neg (fun he => (h a4 (by simp)).2 he)]
        · rw [if_neg ha3]
      · rw [if_neg ha2]
    · rw [if_neg ha]
  | a :: a2 :: a3 :: a4 :: a5 :: u' =>
    simp only [List.cons_append, dropLit]
    by_cases ha : a = 's'
    · rw [if_pos ha]
      by_cases ha2 : a2 = 'r'
      · rw [if_pos ha2]
        by_cases ha3 : a3 = 'c'
        · rw [if_pos ha3]
          by_cases ha4 : a4 = '='
          · rw [if_pos ha4]
            rw [if_neg (fun he => (h a5 (by simp)).1 he)]
          · rw [if_neg ha4]
        · rw [if_neg ha3]
      · rw [if_neg ha2]
    · rw [if_neg ha]

theorem mem_mdPayload {c : Char} {s b : Str} (hc : c ∈ mdPayload s b) :
    c ∈ "data:image/".toList ∨ c ∈ s ∨ c ∈ ";base64,".toList ∨ c ∈ b := by
  simp only [mdPayload, List.mem_append] at hc
  tauto

theorem tryHtml_shape {s b : Str} (rest : Str)
    (hs : s ≠ []) (hb : b ≠ [])
    (hs2 : ∀ c ∈ s, c ≠ ';' ∧ c ≠ '"' ∧ c ≠ '>' ∧ c ≠ '=')
    (hb2 : ∀ c ∈ b, c ≠ '"' ∧ c ≠ '>' ∧ c ≠ '=') :
    tryHtml (htmlImg (mdPayload s b) ++ rest) = some (mdPayload s b, rest) := by
  have hqmem : ∀ c ∈ mdPayload s b, c ≠ '"' ∧ c ≠ '>' ∧ c ≠ '=' := by
    intro c hc
    rcases mem_mdPayload hc with h | h | h | h
    · refine ⟨?_, ?_, ?_⟩ <;> (intro he; subst he; revert h; decide)
    · exact ⟨(hs2 c h).2.1, (hs2 c h).2.2.1, (hs2 c h).2.2.2⟩
    · refine ⟨?_, ?_, ?_⟩ <;> (intro he; subst he; revert h; decide)
    · exact hb2 c h
  have eT : htmlImg (mdPayload s b) ++ rest
      = '<' :: 'i' :: 'm' :: 'g' ::
        (' ' :: 's' :: 'r' :: 'c' :: '=' :: '"' :: (mdPayload s b ++ '"' :: '>' :: rest)) := by
    have l1 : ("<img src=\"".toList : Str)
        = '<' :: 'i' :: 'm' :: 'g' :: ' ' :: 's' :: 'r' :: 'c' :: '=' :: '"' :: [] := rfl
    have l2 : ("\">".toList : Str) = '"' :: '>' :: [] := rfl
    simp [htmlImg, l1, l2]
  rw [eT]
  have hdl : dropLit "<img".toList ('<' :: 'i' :: 'm' :: 'g' ::
      (' ' :: 's' :: 'r' :: 'c' :: '=' :: '"' :: (mdPayload s b ++ '"' :: '>' :: rest)))
      = some (' ' :: 's' :: 'r' :: 'c' :: '=' :: '"' :: (mdPayload s b ++ '"' :: '>' :: rest)) :=
    dropLit_eq_some.mpr rfl
  simp only [tryHtml, hdl]
  have hq' : ∀ x ∈ mdPayload s b, decide (x ≠ '>') = true := fun x hx => by
    simp [(hqmem x hx).2.1]
  have hrun : (' ' :: 's' :: 'r' :: 'c' :: '=' :: '"' ::
      (mdPayload s b ++ '"' :: '>' :: rest)).takeWhile (fun c => c ≠ '>')
      = ' ' :: 's' :: 'r' :: 'c' :: '=' :: '"' :: (mdPayload s b ++ ['"']) := by
    simp only [List.takeWhile_cons, takeWhile_append_all _ hq']
    simp
  rw [hrun]
  have hrunlen : (' ' :: 's' :: 'r' :: 'c' :: '=' :: '"' ::
      (mdPayload s b ++ ['"']) : Str).length = 1 + (mdPayload s b).length + 6 := by
    simp
    omega
  rw [hrunlen]
  have hFail : ∀ j, 1 < j → j ≤ 1 + ((mdPayload s b).length + 6) →
      tryHtmlAt (' ' :: 's' :: 'r' :: 'c' :: '=' :: '"' ::
        (mdPayload s b ++ '"' :: '>' :: rest)) j = none := by
    intro j h1 h2
    have hlit : ("src=\"".toList : Str) = 's' :: 'r' :: 'c' :: '=' :: '"' :: [] := rfl
    have hnone : dropLit "src=\"".toList ((' ' :: 's' :: 'r' :: 'c' :: '=' :: '"' ::
        (mdPayload s b ++ '"' :: '>' :: rest) : Str).drop j) = none := by
      by_cases hj6 : 6 ≤ j
      · obtain ⟨k, rfl⟩ : ∃ k, j = 6 + k := ⟨j - 6, by omega⟩
        have e6 : ((' ' :: 's' :: 'r' :: 'c' :: '=' :: '"' ::
            (mdPayload s b ++ '"' :: '>' :: rest) : Str)).drop (6 + k)
            = (mdPayload s b ++ '"' :: '>' :: rest).drop k := by
          have := drop_append_plus ([' ', 's', 'r', 'c', '=', '"'] : Str)
            (mdPayload s b ++ '"' :: '>' :: rest) k
          simpa using this
        rw [e6]
        by_cases hk : k ≤ (mdPayload s b).length
        · rw [drop_append_le _ _ _ hk]
          apply dropLit_src_none
          intro c hc
          have hcq : c ∈ mdPayload s b := List.drop_subset _ _ hc
          exact ⟨(hqmem c hcq).1, (hqmem c hcq).2.2⟩
        · have ejq : k = (mdPayload s b).length + 1 := by omega
          rw [ejq]
          have e7 : (mdPayload s b ++ '"' :: '>' :: rest).drop ((mdPayload s b).length + 1)
              = '>' :: rest := by
            simp
          rw [e7, hlit]
          simp only [dropLit]
          rw [if_neg (by decide : ¬ ('>' : Char) = 's')]
      · have hj : j = 2 ∨ j = 3 ∨ j = 4 ∨ j = 5 := by omega
        rcases hj with rfl | rfl | rfl | rfl
        · show dropLit _ ('r' :: 'c' :: '=' :: '"' :: (mdPayload s b ++ '"' :: '>' :: rest)) = none
          rw [hlit]
          simp only [dropLit]
          rw [if_neg (by decide : ¬ ('r' : Char) = 's')]
        · show dropLit _ ('c' :: '=' :: '"' :: (mdPayload s b ++ '"' :: '>' :: rest)) = none
          rw [hlit]
          simp only [dropLit]
          rw [if_neg (by decide : ¬ ('c' : Char) = 's')]
        · show dropLit _ ('=' :: '"' :: (mdPayload s b ++ '"' :: '>' :: rest)) = none
          rw [hlit]
          simp only [dropLit]
          rw [if_neg (by decide : ¬ ('=' : Char) = 's')]
        · show dropLit _ ('"' :: (mdPayload s b ++ '"' :: '>' :: rest)) = none
          rw [hlit]
          simp only [dropLit]
          rw [if_neg (by decide : ¬ ('"' : Char) = 's')]
    simp only [tryHtmlAt, hnone]
  have hcongr := @tryHtmlSearch_congr (' ' :: 's' :: 'r' :: 'c' :: '=' :: '"' ::
      (mdPayload s b ++ '"' :: '>' :: rest)) 1 ((mdPayload s b).length + 6) hFail
  have e1 : 1 + ((mdPayload s b).length + 6) = 1 + (mdPayload s b).length + 6 := by omega
  rw [e1] at hcongr
  rw [hcongr]
  have hAt1 : tryHtmlAt (' ' :: 's' :: 'r' :: 'c' :: '=' :: '"' ::
      (mdPayload s b ++ '"' :: '>' :: rest)) 1 = some (mdPayload s b, rest) := by
    have hsrc : dropLit "src=\"".toList ((' ' :: 's' :: 'r' :: 'c' :: '=' :: '"' ::
        (mdPayload s b ++ '"' :: '>' :: rest) : Str).drop 1)
        = some (mdPayload s b ++ '"' :: '>' :: rest) := dropLit_eq_some.mpr rfl
    have hpd : parseDataUri '"' (mdPayload s b ++ '"' :: '>' :: rest)
        = some (mdPayload s b, '>' :: rest) := by
      have := parseDataUri_shape '"' ('>' :: rest) hs (fun c hc => (hs2 c hc).1)
        hb (fun c hc => (hb2 c hc).1)
      simpa [mdPayload, List.append_assoc] using this
    simp only [tryHtmlAt, hsrc, hpd]
    simp
  simp only [tryHtmlSearch, hAt1]

theorem findallImagesF_congr : ∀ (f1 f2 : Nat) (t : Str), t.length < f1 → t.length < f2 →
    findallImagesF f1 t = findallImagesF f2 t := by
  intro f1
  induction f1 with
  | zero => intro f2 t h1 _; exact absurd h1 (Nat.not_lt_zero _)
  | succ f1 ih =>
    intro f2 t h1 h2
    cases f2 with
    | zero => exact absurd h2 (Nat.not_lt_zero _)
    | succ f2 =>
      cases t with
      | nil => rfl
      | cons c rest =>
        simp only [findallImagesF]
        rcases hm : tryMd false (c :: rest) with _ | ⟨g, r⟩
        · simp only [hm]
          rcases hh : tryHtml (c :: rest) with _ | ⟨g, r⟩
          · simp only [hh]
            exact ih f2 rest (by simp at h1; omega) (by simp at h2; omega)
          · simp only [hh]
            have hl := (tryHtml_rest hh).2
            simp only [List.length_cons] at hl h1 h2
            rw [ih f2 r (by omega) (by omega)]
        · simp only [hm]
          have hl := tryMd_rest_lt hm
          simp only [List.length_cons] at hl h1 h2
          rw [ih f2 r (by omega) (by omega)]

theorem findallImagesF_eq {t : Str} {f : Nat} (h : t.length < f) :
    findallImagesF f t = extract_images t :=
  findallImagesF_congr f (t.length + 1) t h (by omega)

theorem extract_images_nil : extract_images [] = [] := rfl

theorem extract_images_skip {c : Char} {t : Str}
    (hm : tryMd false (c :: t) = none) (hh : tryHtml (c :: t) = none) :
    extract_images (c :: t) = extract_images t := by
  show findallImagesF (t.length + 1 + 1) (c :: t) = _
  simp only [findallImagesF, hm, hh]
  rfl

theorem extract_images_md {t g r : Str} (hm : tryMd false t = some (g, r)) :
    extract_images t = (g, []) :: extract_images r := by
  cases t with
  | nil => exact absurd hm (by simp [tryMd])
  | cons c rest =>
    show findallImagesF (rest.length + 1 + 1) (c :: rest) = _
    simp only [findallImagesF, hm]
    have hl := tryMd_rest_lt hm
    simp only [List.length_cons] at hl
    rw [findallImagesF_eq (by omega)]

theorem extract_images_html {t g r : Str} (hm : tryMd false t = none)
    (hh : tryHtml t = some (g, r)) :
    extract_images t = ([], g) :: extract_images r := by
  cases t with
  | nil => exact absurd hh (by simp [tryHtml, dropLit])
  | cons c rest =>
    show findallImagesF (rest.length + 1 + 1) (c :: rest) = _
    simp only [findallImagesF, hm, hh]
    have hl := (tryHtml_rest hh).2
    simp only [List.length_cons] at hl
    rw [findallImagesF_eq (by omega)]

theorem extract_images_pre {pre u : Str} (h : ∀ c ∈ pre, c ≠ '!' ∧ c ≠ '<') :
    extract_images (pre ++ u) = extract_images u := by
  induction pre with
  | nil => simp
  | cons a pre ih =>
    have ha := h a (by simp)
    rw [List.cons_append, extract_images_skip (tryMd_cons_ne ha.1) (tryHtml_cons_ne ha.2)]
    exact ih (fun c hc => h c (by simp [hc]))

theorem extract_images_grp1_nil_aux : ∀ (n : Nat) (t : Str), t.length ≤ n →
    (∀ c ∈ t, c ≠ '!') → ∀ pr ∈ extract_images t, pr.1 = [] := by
  intro n
  induction n with
  | zero =>
    intro t ht _ pr hpr
    have he : t = [] := List.eq_nil_of_length_eq_zero (by omega)
    rw [he, extract_images_nil] at hpr
    simp at hpr
  | succ n ih =>
    intro t ht hbang pr hpr
    cases t with
    | nil => rw [extract_images_nil] at hpr; simp at hpr
    | cons c rest =>
      have hm : tryMd false (c :: rest) = none := tryMd_cons_ne (hbang c (by simp))
      rcases hh : tryHtml (c :: rest) with _ | ⟨g, r⟩
      · rw [extract_images_skip hm hh] at hpr
        exact ih rest (by simp at ht; omega) (fun x hx => hbang x (by simp [hx])) pr hpr
      · rw [extract_images_html hm hh] at hpr
        rcases List.mem_cons.mp hpr with heq | hmem
        · rw [heq]
        · have hsfx := (tryHtml_rest hh).1
          have hlen := (tryHtml_rest hh).2
          simp only [List.length_cons] at hlen ht
          exact ih r (by omega) (fun x hx => hbang x (hsfx.subset hx)) pr hmem

theorem extract_images_grp1_nil {t : Str} (h : ∀ c ∈ t, c ≠ '!') :
    ∀ pr ∈ extract_images t, pr.1 = [] :=
  extract_images_grp1_nil_aux t.length t le_rfl h

theorem subMdF_congr : ∀ (f1 f2 : Nat) (rep t : Str), t.length < f1 → t.length < f2 →
    subMdF f1 rep t = subMdF f2 rep t := by
  intro f1
  induction f1 with
  | zero => intro f2 rep t h1 _; exact absurd h1 (Nat.not_lt_zero _)
  | succ f1 ih =>
    intro f2 rep t h1 h2
    cases f2 with
    | zero => exact absurd h2 (Nat.not_lt_zero _)
    | succ f2 =>
      cases t with
      | nil => rfl
      | cons c rest =>
        simp only [subMdF]
        rcases hm : tryMd true (c :: rest) with _ | ⟨g, r⟩
        · simp only [hm]
          simp only [List.length_cons] at h1 h2
          rw [ih f2 rep rest (by omega) (by omega)]
        · simp only [hm]
          have hl := tryMd_rest_lt hm
          simp only [List.length_cons] at hl h1 h2
          rw [ih f2 rep r (by omega) (by omega)]

theorem subMdF_eq {rep t : Str} {f : Nat} (h : t.length < f) :
    subMdF f rep t = subMd t rep :=
  subMdF_congr f (t.length + 1) rep t h (by omega)

theorem subMd_nil (rep : Str) : subMd [] rep = [] := rfl

theorem subMd_skip {c : Char} {t rep : Str} (hm : tryMd true (c :: t) = none) :
    subMd (c :: t) rep = c :: subMd t rep := by
  show subMdF (t.length + 1 + 1) rep (c :: t) = _
  simp only [subMdF, hm]
  rfl

theorem subMd_match {t g r rep : Str} (hm : tryMd true t = some (g, r)) :
    subMd t rep = rep ++ subMd r rep := by
  cases t with
  | nil => exact absurd hm (by simp [tryMd])
  | cons c rest =>
    show subMdF (rest.length + 1 + 1) rep (c :: rest) = _
    simp only [subMdF, hm]
    have hl := tryMd_rest_lt hm
    simp only [List.length_cons] at hl
    rw [subMdF_eq (by omega)]

theorem subMd_pre {pre u rep : Str} (h : ∀ c ∈ pre, c ≠ '!') :
    subMd (pre ++ u) rep = pre ++ subMd u rep := by
  induction pre with
  | nil => simp
  | cons a pre ih =>
    rw [List.cons_append, subMd_skip (tryMd_cons_ne (h a (by simp)))]
    rw [ih (fun c hc => h c (by simp [hc]))]
    rfl

theorem subMd_id_noBang {t rep : Str} (h : ∀ c ∈ t, c ≠ '!') : subMd t rep = t := by
  induction t with
  | nil => rfl
  | cons c rest ih =>
    rw [subMd_skip (tryMd_cons_ne (h c (by simp)))]
    rw [ih (fun x hx => h x (by simp [hx]))]

theorem hasMd_nil : hasMd [] = false := rfl

theorem hasMd_cons (c : Char) (t : Str) :
    hasMd (c :: t) = ((tryMd true (c :: t)).isSome || hasMd t) := rfl

theorem subMd_id_of_not_hasMd {t rep : Str} (h : hasMd t = false) : subMd t rep = t := by
  induction t with
  | nil => rfl
  | cons c rest ih =>
    rw [hasMd_cons] at h
    have h1 : tryMd true (c :: rest) = none := by
      rcases hm : tryMd true (c :: rest) with _ | v
      · rfl
      · rw [hm] at h; simp at h
    have h2 : hasMd rest = false := by
      rw [h1] at h; simpa using h
    rw [subMd_skip h1, ih h2]

/-! ## Lemmas about the formatter loops -/

theorem tablesLoop_get? (exT : List Str) : ∀ (ts : List StructTable) (i j : Nat),
    (tablesLoop exT ts i).get? j
      = (ts.get? j).map (fun tb =>
          { bbox := tb.bbox, rows := tb.rows, columns := tb.columns,
            content := exT.get? (i + j) : Table }) := by
  intro ts
  induction ts with
  | nil => intro i j; simp [tablesLoop]
  | cons tb ts ih =>
    intro i j
    cases j with
    | zero => simp [tablesLoop]
    | succ j =>
      simp only [tablesLoop, List.get?_cons_succ]
      rw [ih (i + 1) j]
      have e : i + 1 + j = i + (j + 1) := by omega
      rw [e]

theorem tablesLoop_length (exT : List Str) : ∀ (ts : List StructTable) (i : Nat),
    (tablesLoop exT ts i).length = ts.length := by
  intro ts
  induction ts with
  | nil => intro i; rfl
  | cons tb ts ih => intro i; simp [tablesLoop, ih (i + 1)]

theorem imagesLoop_fst_get? (keep : Bool) (H : Str → Str) (exI : List (Str × Str)) :
    ∀ (imgs : List StructImage) (i : Nat) (text : Str) (j : Nat),
      (imagesLoop keep H exI imgs i text).1.get? j
        = (imgs.get? j).map (fun img => emitImg H (grp1At exI (i + j)) img) := by
  intro imgs
  induction imgs with
  | nil => intro i text j; simp [imagesLoop]
  | cons img imgs ih =>
    intro i text j
    cases j with
    | zero => simp [imagesLoop]
    | succ j =>
      simp only [imagesLoop, List.get?_cons_succ]
      rw [ih (i + 1) _ j]
      have e : i + 1 + j = i + (j + 1) := by omega
      rw [e]

theorem imagesLoop_fst_length (keep : Bool) (H : Str → Str) (exI : List (Str × Str)) :
    ∀ (imgs : List StructImage) (i : Nat) (text : Str),
      (imagesLoop keep H exI imgs i text).1.length = imgs.length := by
  intro imgs
  induction imgs with
  | nil => intro i text; rfl
  | cons img imgs ih =>
    intro i text
    simp only [imagesLoop, List.length_cons]
    rw [ih]

theorem imagesLoop_keep_text (H : Str → Str) (exI : List (Str × Str)) :
    ∀ (imgs : List StructImage) (i : Nat) (text : Str),
      (imagesLoop true H exI imgs i text).2 = text := by
  intro imgs
  induction imgs with
  | nil => intro i text; rfl
  | cons img imgs ih =>
    intro i text
    simp only [imagesLoop]
    by_cases hc : grp1At exI i = []
    · rw [if_pos hc]
      exact ih (i + 1) text
    · rw [if_neg hc]
      simp only [if_true]
      exact ih (i + 1) text

theorem imagesLoop_text_of_grp1_nil (keep : Bool) (H : Str → Str) (exI : List (Str × Str)) :
    ∀ (imgs : List StructImage) (i : Nat) (text : Str),
      (∀ j, i ≤ j → grp1At exI j = []) →
      (imagesLoop keep H exI imgs i text).2 = text := by
  intro imgs
  induction imgs with
  | nil => intro i text _; rfl
  | cons img imgs ih =>
    intro i text h
    simp only [imagesLoop]
    rw [if_pos (h i le_rfl)]
    exact ih (i + 1) text (fun j hj => h j (by omega))

theorem imagesLoop_text_of_not_hasMd (H : Str → Str) (exI : List (Str × Str)) :
    ∀ (imgs : List StructImage) (i : Nat) (text : Str),
      hasMd text = false →
      (imagesLoop false H exI imgs i text).2 = text := by
  intro imgs
  induction imgs with
  | nil => intro i text _; rfl
  | cons img imgs ih =>
    intro i text h
    simp only [imagesLoop]
    by_cases hc : grp1At exI i = []
    · rw [if_pos hc]
      exact ih (i + 1) text h
    · rw [if_neg hc]
      simp only [Bool.false_eq_true, if_false]
      rw [subMd_id_of_not_hasMd h]
      exact ih (i + 1) text h

theorem imagesLoop_text_firstSub (H : Str → Str) (exI : List (Str × Str))
    {i0 : Nat} {P : Str} (hP : grp1At exI i0 = P) (hPne : P ≠ [])
    (hpre : ∀ j, j < i0 → grp1At exI j = []) :
    ∀ (imgs : List StructImage) (i : Nat) (text : Str), i ≤ i0 → i0 < i + imgs.length →
      hasMd (subMd text ("[IMAGE](".toList ++ H P ++ [')'])) = false →
      (imagesLoop false H exI imgs i text).2
        = subMd text ("[IMAGE](".toList ++ H P ++ [')']) := by
  intro imgs
  induction imgs with
  | nil =>
    intro i text h1 h2 _
    simp only [List.length_nil] at h2
    omega
  | cons img imgs ih =>
    intro i text h1 h2 h3
    by_cases hii : i = i0
    · subst hii
      simp only [imagesLoop, hP]
      rw [if_neg hPne]
      simp only [Bool.false_eq_true, if_false]
      exact imagesLoop_text_of_not_hasMd H exI imgs (i + 1) _ h3
    · have hlt : i < i0 := by omega
      simp only [imagesLoop]
      rw [if_pos (hpre i hlt)]
      exact ih (i + 1) text (by omega) (by simp only [List.length_cons] at h2; omega) h3

/-! ## Lemmas exposing the components of `formatItem` -/

theorem formatItem_tables_get? (keep : Bool) (ext : Ext) (item : PDFResult) (j : Nat) :
    (formatItem keep ext item).1.elements.tables.get? j
      = (item.tables.get? j).map (fun tb =>
          { bbox := tb.bbox, rows := tb.rows, columns := tb.columns,
            content := (extract_tables item.text).get? j : Table }) := by
  by_cases h : item.tables.isEmpty
  · have he : item.tables = [] := by
      cases hx : item.tables
      · rfl
      · rw [hx] at h; simp at h
    simp [formatItem, he]
  · simp only [formatItem, if_neg h]
    rw [tablesLoop_get?]
    simp

theorem formatItem_images_get? (keep : Bool) (ext : Ext) (item : PDFResult) (j : Nat) :
    (formatItem keep ext item).1.elements.images.get? j
      = (item.images.get? j).map
          (fun img => emitImg ext.md5hex (grp1At (extract_images item.text) j) img) := by
  by_cases h : item.images.isEmpty
  · have he : item.images = [] := by
      cases hx : item.images
      · rfl
      · rw [hx] at h; simp at h
    simp [formatItem, he]
  · simp only [formatItem, if_neg h]
    rw [imagesLoop_fst_get?]
    simp

theorem formatItem_text (keep : Bool) (ext : Ext) (item : PDFResult) :
    (formatItem keep ext item).1.text
      = (if item.images.isEmpty then (([], item.text) : List Image × Str)
         else imagesLoop keep ext.md5hex (extract_images item.text) item.images 0 item.text).2 :=
  rfl

theorem formatItem_snd (keep : Bool) (ext : Ext) (item : PDFResult) :
    (formatItem keep ext item).2 = { item with text := (formatItem keep ext item).1.text } :=
  rfl

theorem formatItem_tables_length (keep : Bool) (ext : Ext) (item : PDFResult) :
    (formatItem keep ext item).1.elements.tables.length = item.tables.length := by
  by_cases h : item.tables.isEmpty
  · have he : item.tables = [] := by
      cases hx : item.tables
      · rfl
      · rw [hx] at h; simp at h
    simp [formatItem, he]
  · simp only [formatItem, if_neg h]
    rw [tablesLoop_length]

theorem formatItem_images_length (keep : Bool) (ext : Ext) (item : PDFResult) :
    (formatItem keep ext item).1.elements.images.length = item.images.length := by
  by_cases h : item.images.isEmpty
  · have he : item.images = [] := by
      cases hx : item.images
      · rfl
      · rw [hx] at h; simp at h
    simp [formatItem, he]
  · simp only [formatItem, if_neg h]
    rw [imagesLoop_fst_length]

/-! ## The claims -/

/-- C1: for every page input processed by `FormatterMD.format`, the output has exactly
as many tables as `item.tables` and as many images as `item.images`, and the `i`-th
output table/image carries the positional fields (`bbox`, `rows`, `columns`; resp.
`number`, `bbox`, `width`, `height`) of the `i`-th input entry. -/
theorem C1_positional_invariant (keep : Bool) (ext : Ext) (item : PDFResult) :
    (formatItem keep ext item).1.elements.tables.length = item.tables.length ∧
    (formatItem keep ext item).1.elements.images.length = item.images.length ∧
    (∀ i, ((formatItem keep ext item).1.elements.tables.get? i).map Table.bbox
        = (item.tables.get? i).map StructTable.bbox) ∧
    (∀ i, ((formatItem keep ext item).1.elements.tables.get? i).map Table.rows
        = (item.tables.get? i).map StructTable.rows) ∧
    (∀ i, ((formatItem keep ext item).1.elements.tables.get? i).map Table.columns
        = (item.tables.get? i).map StructTable.columns) ∧
    (∀ i, ((formatItem keep ext item).1.elements.images.get? i).map Image.number
        = (item.images.get? i).map StructImage.number) ∧
    (∀ i, ((formatItem keep ext item).1.elements.images.get? i).map Image.bbox
        = (item.images.get? i).map StructImage.bbox) ∧
    (∀ i, ((formatItem keep ext item).1.elements.images.get? i).map Image.width
        = (item.images.get? i).map StructImage.width) ∧
    (∀ i, ((formatItem keep ext item).1.elements.images.get? i).map Image.height
        = (item.images.get? i).map StructImage.height) := by
  refine ⟨formatItem_tables_length keep ext item, formatItem_images_length keep ext item,
    ?_, ?_, ?_, ?_, ?_, ?_, ?_⟩ <;> intro i
  · rw [formatItem_tables_get?]; cases item.tables.get? i <;> simp
  · rw [formatItem_tables_get?]; cases item.tables.get? i <;> simp
  · rw [formatItem_tables_get?]; cases item.tables.get? i <;> simp
  · rw [formatItem_images_get?]; cases item.images.get? i <;> simp [emitImg]
  · rw [formatItem_images_get?]; cases item.images.get? i <;> simp [emitImg]
  · rw [formatItem_images_get?]; cases item.images.get? i <;> simp [emitImg]
  · rw [formatItem_images_get?]; cases item.images.get? i <;> simp [emitImg]

/-- C7: the `i`-th structurally detected table receives the `i`-th textual table block
(`extract_tables`) as content, `none` when fewer blocks exist; extra blocks are
discarded (the loop runs over `item.tables` only) and no error is possible.
The second conjunct is the concrete scenario: one structural table, zero textual
blocks, one output table with `content = none`. -/
theorem C7_table_content_pairing (keep : Bool) (ext : Ext) (item : PDFResult) :
    (∀ j, (formatItem keep ext item).1.elements.tables.get? j
        = (item.tables.get? j).map (fun tb =>
            { bbox := tb.bbox, rows := tb.rows, columns := tb.columns,
              content := (extract_tables item.text).get? j : Table })) ∧
    (formatItem keep ext itemTableNoText).1.elements.tables
      = [{ bbox := ⟨0, 0, 2, 2⟩, rows := 2, columns := 2, content := none }] := by
  constructor
  · intro j
    exact formatItem_tables_get? keep ext item j
  · apply List.ext_get?
    intro j
    rw [formatItem_tables_get?]
    have he : extract_tables itemTableNoText.text = [] := by decide
    rw [he]
    cases j with
    | zero => simp [itemTableNoText]
    | succ j => simp [itemTableNoText]

/-- C8: if the final text of a page is empty or whitespace-only, the language is
`none`; and whenever the language identifier throws on the final text, the exception is
swallowed and the language is `none` (the formatter itself is a total function, so
nothing propagates). -/
theorem C8_language_best_effort (keep : Bool) (ext : Ext) (item : PDFResult) :
    ((∀ c ∈ (formatItem keep ext item).1.text, pyIsSpace c = true) →
      (formatItem keep ext item).1.language = none) ∧
    (ext.detect ((formatItem keep ext item).1.text) = .error () →
      (formatItem keep ext item).1.language = none) := by
  have hlang : (formatItem keep ext item).1.language
      = (if (formatItem keep ext item).1.text ≠ [] ∧
            pyStrip ((formatItem keep ext item).1.text) ≠ [] then
          match ext.detect ((formatItem keep ext item).1.text) with
          | .ok l => some l
          | .error _ => none
        else none) := rfl
  constructor
  · intro hws
    rw [hlang]
    have hstrip : pyStrip ((formatItem keep ext item).1.text) = [] := by
      simp [pyStrip, dropWhile_all_nil hws]
    rw [if_neg (by tauto)]
  · intro herr
    rw [hlang]
    by_cases hcond : (formatItem keep ext item).1.text ≠ [] ∧
        pyStrip ((formatItem keep ext item).1.text) ≠ []
    · rw [if_pos hcond, herr]
    · rw [if_neg hcond]

/-- Witness for C8 at a concrete whitespace-only page with an always-throwing
detector. -/
theorem C8_language_best_effort_witness :
    (∀ c ∈ (formatItem false extC itemBlank).1.text, pyIsSpace c = true) ∧
    (formatItem false extC itemBlank).1.language = none := by
  refine ⟨by decide, (C8_language_best_effort false extC itemBlank).1 (by decide)⟩

/-- C9: `_check_content` fails exactly when the batch is not a list, contains a
non-`PDFResult` element, or is empty; and `format` runs it first, returning its
(wrapped) error without processing anything. -/
theorem C9_validator_exact (content : RawContent) (keep : Bool) (ext : Ext) :
    ((check_content content).isOk = false ↔
      (content = .notList ∨ ∃ items, content = .ofList items ∧
        (items = [] ∨ RawItem.other ∈ items))) ∧
    (∀ e, check_content content = .error e →
      format keep ext content
        = .error ("[FORMATTER] Error formatting content: ".toList ++ e)) := by
  constructor
  · cases content with
    | notList =>
      constructor
      · intro _; exact Or.inl rfl
      · intro _; rfl
    | ofList items =>
      constructor
      · intro hfalse
        by_cases hany : items.any
            (fun it => match it with | RawItem.page _ => false | RawItem.other => true) = true
        · refine Or.inr ⟨items, rfl, Or.inr ?_⟩
          obtain ⟨x, hx, hpx⟩ := List.any_eq_true.mp hany
          cases x with
          | page p => simp at hpx
          | other => exact hx
        · by_cases hemp : items.isEmpty = true
          · refine Or.inr ⟨items, rfl, Or.inl ?_⟩
            cases hx : items
            · rfl
            · rw [hx] at hemp; simp at hemp
          · exfalso
            have hok : check_content (.ofList items) = Except.ok () := by
              simp only [check_content]
              rw [if_neg hany, if_neg hemp]
            rw [hok] at hfalse
            exact absurd hfalse (by decide)
      · intro h
        rcases h with h | ⟨items', heq, hcase⟩
        · exact RawContent.noConfusion h
        · injection heq with hi
          subst hi
          rcases hcase with rfl | hmem
          · rfl
          · have hany : items.any
                (fun it => match it with | RawItem.page _ => false | RawItem.other => true)
                = true := List.any_eq_true.mpr ⟨RawItem.other, hmem, by simp⟩
            simp only [check_content]
            rw [if_pos hany]
            rfl
  · intro e he
    simp [format, he]

/-- Witness for C9: the empty batch is rejected, and `format` surfaces the wrapped
validation error. -/
theorem C9_validator_exact_witness :
    (check_content (.ofList [])).isOk = false ∧
    format false extC (.ofList [])
      = .error ("[FORMATTER] Error formatting content: [FORMATTER] Content is empty.".toList) := by
  constructor
  · exact (C9_validator_exact (.ofList []) false extC).1.mpr
      (Or.inr ⟨[], rfl, Or.inl rfl⟩)
  · exact (C9_validator_exact (.ofList []) false extC).2 _ (by rfl)

/-- C3 counterexample: on a page with one structural image and no textual image match,
the stored payload is the empty string `""` (`some []`), *not* `None` as the claim
states; the contentHash is `None` and no error occurs. -/
theorem C3_counterexample :
    ((formatItem false extC itemNoTextualImg).1.elements.images.get? 0).map Image.base64
        = some (some ([] : Str)) ∧
    ((formatItem false extC itemNoTextualImg).1.elements.images.get? 0).map Image.base64
        ≠ some (none : Option Str) ∧
    ((formatItem false extC itemNoTextualImg).1.elements.images.get? 0).map Image.hash
        = some (none : Option Str) := by
  decide

/-- C3 (amended): when fewer textual image matches exist than structural images, the
surplus structural images degrade to an *empty-string* payload (line 89's
`else ""`) with contentHash `None`, and the batch still formats without error. -/
theorem C3_image_degrade (keep : Bool) (ext : Ext) (item : PDFResult) (j : Nat)
    (h : (extract_images item.text).length ≤ j) :
    ((formatItem keep ext item).1.elements.images.get? j).map Image.base64
        = (item.images.get? j).map (fun _ => some ([] : Str)) ∧
    ((formatItem keep ext item).1.elements.images.get? j).map Image.hash
        = (item.images.get? j).map (fun _ => (none : Option Str)) ∧
    (format keep ext (.ofList [.page item])).isOk = true := by
  have hnone : (extract_images item.text).get? j = none := by
    rw [List.get?_eq_getElem?]
    exact List.getElem?_eq_none h
  have hg : grp1At (extract_images item.text) j = [] := by
    simp only [grp1At, hnone]
  refine ⟨?_, ?_, ?_⟩
  · rw [formatItem_images_get?, hg]
    cases item.images.get? j <;> simp [emitImg]
  · rw [formatItem_images_get?, hg]
    cases item.images.get? j <;> simp [emitImg]
  · have hcheck : check_content (.ofList [.page item]) = Except.ok () := by
      simp [check_content]
    simp only [format, hcheck]
    rfl

/-- Witness for C3 (amended) at the concrete mismatching page. -/
theorem C3_image_degrade_witness :
    (extract_images itemNoTextualImg.text).length ≤ 0 ∧
    (format false extC (.ofList [.page itemNoTextualImg])).isOk = true :=
  ⟨by decide, (C3_image_degrade false extC itemNoTextualImg 0 (by decide)).2.2⟩

/-- C4 counterexample: the scanner *does* match the HTML `<img>` syntax (the match's
second capture group carries the data-URI), but the structural image paired with that
match receives the empty payload and a `None` hash — the code reads only capture
group 1 (`extracted_images[i][0]`), so an HTML-paired image never receives its
payload, contradicting the claim. -/
theorem C4_counterexample :
    extract_images itemHtmlImg.text = [([], "data:image/png;base64,QUJD".toList)] ∧
    ((formatItem false extC itemHtmlImg).1.elements.images.get? 0).map Image.base64
      = some (some ([] : Str)) ∧
    ((formatItem false extC itemHtmlImg).1.elements.images.get? 0).map Image.hash
      = some (none : Option Str) := by
  decide

/-- C4 (amended): for a page whose text is an HTML-syntax image with a well-formed
payload (surrounded by text free of `!`/`<`), the scanner returns exactly one match
whose group 1 is empty and group 2 is the tag's data-URI; hence the structural image
paired with it stores the empty payload and a `None` contentHash, in either mode. -/
theorem C4_html_match_empty_group1 (keep : Bool) (ext : Ext) (item : PDFResult)
    (pre s b rest : Str)
    (hpre : ∀ c ∈ pre, c ≠ '!' ∧ c ≠ '<')
    (hrest : ∀ c ∈ rest, c ≠ '!' ∧ c ≠ '<')
    (hs : s ≠ []) (hb : b ≠ [])
    (hs2 : ∀ c ∈ s, c ≠ ';' ∧ c ≠ '"' ∧ c ≠ '>' ∧ c ≠ '=')
    (hb2 : ∀ c ∈ b, c ≠ '"' ∧ c ≠ '>' ∧ c ≠ '=')
    (htext : item.text = pre ++ htmlImg (mdPayload s b) ++ rest) :
    extract_images item.text = [([], mdPayload s b)] ∧
    ((formatItem keep ext item).1.elements.images.get? 0).map Image.base64
      = (item.images.get? 0).map (fun _ => some ([] : Str)) ∧
    ((formatItem keep ext item).1.elements.images.get? 0).map Image.hash
      = (item.images.get? 0).map (fun _ => (none : Option Str)) := by
  have hEI : extract_images item.text = [([], mdPayload s b)] := by
    rw [htext, List.append_assoc, extract_images_pre hpre]
    have hhead : tryMd false (htmlImg (mdPayload s b) ++ rest) = none := by
      obtain ⟨t', ht'⟩ : ∃ t', htmlImg (mdPayload s b) ++ rest = '<' :: t' := ⟨_, rfl⟩
      rw [ht']
      exact tryMd_cons_ne (by decide)
    rw [extract_images_html hhead (tryHtml_shape rest hs hb hs2 hb2)]
    have hrest0 : extract_images rest = [] := by
      have := @extract_images_pre rest [] hrest
      simpa using this
    rw [hrest0]
  have hg : grp1At (extract_images item.text) 0 = [] := by
    rw [hEI]
    simp [grp1At]
  refine ⟨hEI, ?_, ?_⟩
  · rw [formatItem_images_get?, hg]
    cases item.images.get? 0 <;> simp [emitImg]
  · rw [formatItem_images_get?, hg]
    cases item.images.get? 0 <;> simp [emitImg]

/-- Witness for C4 (amended) at the concrete HTML-image page. -/
theorem C4_html_match_empty_group1_witness :
    extract_images itemHtmlImg.text = [([], mdPayload "png".toList "QUJD".toList)] :=
  (C4_html_match_empty_group1 false extC itemHtmlImg [] "png".toList "QUJD".toList []
    (by decide) (by decide) (by decide) (by decide) (by decide) (by decide) (by decide)).1

/-- C5 counterexample: in reference mode, `format` mutates the input record's `text`
field in place (line 94).  After the call on a page with one markdown image and one
structural image, the stored input text differs from the original. -/
theorem C5_counterexample :
    (formatItem false extC itemMdImg).2.text ≠ itemMdImg.text ∧
    (formatItem false extC itemMdImg).2.text
      = "x [IMAGE](hdata:image/png;base64,QUJD) y".toList := by
  decide

/-- C5 (amended): every field of the input record other than `text` is left unchanged
by the call, and in inline-keep mode the whole record (text included) is unchanged;
in reference mode the `text` field may be rewritten in place. -/
theorem C5_input_frame (keep : Bool) (ext : Ext) (item : PDFResult) :
    (formatItem keep ext item).2.metadata = item.metadata ∧
    (formatItem keep ext item).2.tables = item.tables ∧
    (formatItem keep ext item).2.images = item.images ∧
    (keep = true → (formatItem keep ext item).2 = item) := by
  refine ⟨rfl, rfl, rfl, ?_⟩
  intro hk
  subst hk
  have htext : (formatItem true ext item).1.text = item.text := by
    rw [formatItem_text]
    by_cases h : item.images.isEmpty
    · rw [if_pos h]
    · rw [if_neg h]
      exact imagesLoop_keep_text _ _ _ _ _
  rw [formatItem_snd, htext]

/-- Witness for C5 (amended): inline-keep mode leaves the concrete input untouched. -/
theorem C5_input_frame_witness :
    (formatItem true extC itemMdImg).2 = itemMdImg :=
  (C5_input_frame true extC itemMdImg).2.2.2 rfl

/-- C2 counterexample: the reference-mode substitution is *not* independent of how many
structural images exist.  On a page whose text contains exactly one markdown-syntax
inline image with payload `P` but whose structural image list is empty, the rewrite
never runs: the output text is unchanged and still contains `P` (and no reference
token), contradicting the claim's round trip. -/
theorem C2_counterexample :
    (formatItem false extC itemNoStruct).1.text = itemNoStruct.text ∧
    ("data:image/png;base64,QUJD".toList : Str) <:+:
      (formatItem false extC itemNoStruct).1.text := by
  decide

/-- C2 (amended): *provided at least one structural image exists* (so that the loop
pairs index 0 with the markdown match), reference mode replaces the markdown-syntax
inline image with the reference token `[IMAGE](<hash of its payload>)` while
everything before and after it — including any HTML `<img>` tag in `post` — is left
verbatim.  (Note the payload still occurs inside an untouched HTML tag when one with
the same payload is present: the tag is not substituted.) -/
theorem C2_reference_rewrite (ext : Ext) (item : PDFResult)
    (pre alt s b post : Str)
    (hpre : ∀ c ∈ pre, c ≠ '!' ∧ c ≠ '<')
    (halt : ∀ c ∈ alt, c ≠ ']' ∧ c ≠ '\n')
    (hs : s ≠ []) (hs2 : ∀ c ∈ s, c ≠ ';')
    (hb : b ≠ []) (hb2 : ∀ c ∈ b, c ≠ ')')
    (hpost : ∀ c ∈ post, c ≠ '!')
    (htext : item.text = pre ++ mdImg alt s b ++ post)
    (himgs : item.images ≠ []) :
    (formatItem false ext item).1.text
      = pre ++ imgTok (ext.md5hex (mdPayload s b)) ++ post := by
  have hshape : mdImg alt s b ++ post
      = '!' :: '[' :: (alt ++ ']' :: '(' :: (mdPayload s b ++ ')' :: post)) := by
    simp [mdImg]
  have hmd_false : tryMd false (mdImg alt s b ++ post) = some (mdPayload s b, post) := by
    rw [hshape]
    exact tryMd_shape post
      (fun c hc => ⟨(halt c hc).1, by simp [dotOk, (halt c hc).2]⟩) hs hs2 hb hb2
  have hmd_true : tryMd true (mdImg alt s b ++ post) = some (mdPayload s b, post) := by
    rw [hshape]
    exact tryMd_shape post (fun c hc => ⟨(halt c hc).1, by simp [dotOk]⟩) hs hs2 hb hb2
  have hEI : extract_images item.text = (mdPayload s b, []) :: extract_images post := by
    rw [htext, List.append_assoc, extract_images_pre hpre, extract_images_md hmd_false]
  have hPne : mdPayload s b ≠ [] := by simp [mdPayload]
  have hg0 : grp1At (extract_images item.text) 0 = mdPayload s b := by
    rw [hEI]
    simp [grp1At, hPne]
  have hgj : ∀ j, 1 ≤ j → grp1At (extract_images item.text) j = [] := by
    intro j hj
    rw [hEI]
    obtain ⟨j', rfl⟩ : ∃ j', j = j' + 1 := ⟨j - 1, by omega⟩
    simp only [grp1At, List.get?_cons_succ]
    rcases hq : (extract_images post).get? j' with _ | pr
    · rfl
    · have hmem : pr ∈ extract_images post := List.get?_mem hq
      have := extract_images_grp1_nil hpost pr hmem
      simp [this]
  have hsub : subMd item.text (imgTok (ext.md5hex (mdPayload s b)))
      = pre ++ imgTok (ext.md5hex (mdPayload s b)) ++ post := by
    rw [htext, List.append_assoc, subMd_pre (fun c hc => (hpre c hc).1),
        subMd_match hmd_true, subMd_id_noBang hpost, List.append_assoc]
  rw [formatItem_text]
  have hne : ¬ item.images.isEmpty = true := by
    cases hx : item.images
    · exact absurd hx himgs
    · simp
  rw [if_neg hne]
  cases hx : item.images with
  | nil => exact absurd hx himgs
  | cons img0 imgs' =>
    simp only [imagesLoop, hg0]
    rw [if_neg hPne]
    simp only [Bool.false_eq_true, if_false]
    rw [imagesLoop_text_of_grp1_nil _ _ _ imgs' 1 _ (fun j hj => hgj j hj)]
    exact hsub

/-- Witness for C2 (amended) at a concrete page: markdown image rewritten to the
token, HTML tag with the same payload left verbatim. -/
theorem C2_reference_rewrite_witness :
    (formatItem false extC itemMdPlusHtml).1.text
      = ("see [IMAGE](hdata:image/png;base64,QUJD)"
         ++ " and <img src=\"data:image/png;base64,QUJD\"> end").toList := by
  have h := C2_reference_rewrite extC itemMdPlusHtml
    "see ".toList "a".toList "png".toList "QUJD".toList
    (" and <img src=\"data:image/png;base64,QUJD\"> end").toList
    (by decide) (by decide) (by decide) (by decide) (by decide) (by decide) (by decide)
    (by decide) (by decide)
  rw [h]
  decide

/-- C10 counterexample: a page with two markdown-syntax inline images, each paired
with a structural image, on which the final text's (single) replaced occurrence
carries the hash of the *second* payload, not that of the earliest non-empty paired
payload, and differs from the text a single all-at-once substitution would give: the
first pass's rewrite created a fresh markdown-image match (a stray `!` glued to the
replacement token's `[`, closing on a leftover `](data:image/…)` remnant), so the
second iteration's substitution was not a no-op. -/
theorem C10_counterexample :
    extract_images itemAdv.text
      = [("data:image/s;base64,x".toList, []), ("data:image/t;base64,y".toList, [])] ∧
    itemAdv.images.length = 2 ∧
    (formatItem false extC itemAdv).1.text
      = imgTok ('h' :: "data:image/t;base64,y".toList) ∧
    (formatItem false extC itemAdv).1.text
      ≠ subMd itemAdv.text (imgTok ('h' :: "data:image/s;base64,x".toList)) := by
  decide

/-- C10 (amended): in reference mode, if `i0` is the earliest structural-image index
whose paired textual payload `P` is non-empty, and the one-pass substitution with
`P`'s hash leaves no further markdown-image match (the non-adversarial case), then the
final text is exactly that one-pass substitution — every replaced occurrence carries
`P`'s hash — while each stored `contentHash` field still hashes its own payload. -/
theorem C10_single_hash_rewrite (ext : Ext) (item : PDFResult) (i0 : Nat) (P : Str)
    (hi0 : i0 < item.images.length)
    (hP : grp1At (extract_images item.text) i0 = P) (hPne : P ≠ [])
    (hpre : ∀ j, j < i0 → grp1At (extract_images item.text) j = [])
    (hnom : hasMd (subMd item.text (imgTok (ext.md5hex P))) = false) :
    (formatItem false ext item).1.text = subMd item.text (imgTok (ext.md5hex P)) ∧
    (∀ j, (formatItem false ext item).1.elements.images.get? j
        = (item.images.get? j).map
            (fun img => emitImg ext.md5hex (grp1At (extract_images item.text) j) img)) := by
  constructor
  · rw [formatItem_text]
    have hne : ¬ item.images.isEmpty = true := by
      cases hx : item.images
      · rw [hx] at hi0; simp at hi0
      · simp
    rw [if_neg hne]
    exact imagesLoop_text_firstSub ext.md5hex (extract_images item.text) hP hPne hpre
      item.images 0 item.text (Nat.zero_le _) (by omega) hnom
  · intro j
    exact formatItem_images_get? false ext item j

/-- Witness for C10 (amended) at a plain two-image page. -/
theorem C10_single_hash_rewrite_witness :
    (formatItem false extC itemTwoMd).1.text
      = subMd itemTwoMd.text (imgTok (extC.md5hex "data:image/p;base64,AA".toList)) :=
  (C10_single_hash_rewrite extC itemTwoMd 0 "data:image/p;base64,AA".toList
    (by decide) (by decide) (by decide)
    (fun j hj => absurd hj (Nat.not_lt_zero j)) (by decide)).1

/-- C6: in inline-keep mode, a structural image paired with a non-empty textual
payload `P` stores `P` truncated at the first `=` inclusive
(`P.split("=")[0] + "="`, which under the hypothesis `'=' ∈ P` is exactly the prefix
of `P` up to and including its first `=`), while the output text — and the input
record — retain the original text, payload included, unchanged. -/
theorem C6_inline_keep_truncation (ext : Ext) (item : PDFResult) (j : Nat) (P g2 : Str)
    (hget : (extract_images item.text).get? j = some (P, g2))
    (hne : P ≠ []) (_hfirst : '=' ∈ P) :
    ((formatItem true ext item).1.elements.images.get? j).map Image.base64
      = (item.images.get? j).map
          (fun _ => some (P.takeWhile (fun c => c ≠ '=') ++ ['='])) ∧
    (formatItem true ext item).1.text = item.text ∧
    (formatItem true ext item).2.text = item.text := by
  have hg : grp1At (extract_images item.text) j = P := by
    have hget' : (extract_images item.text)[j]? = some (P, g2) := by
      rw [← List.get?_eq_getElem?]
      exact hget
    simp [grp1At, hget', hne]
  have htext : (formatItem true ext item).1.text = item.text := by
    rw [formatItem_text]
    by_cases h : item.images.isEmpty
    · rw [if_pos h]
    · rw [if_neg h]
      exact imagesLoop_keep_text _ _ _ _ _
  refine ⟨?_, htext, ?_⟩
  · rw [formatItem_images_get?, hg]
    cases item.images.get? j <;> simp [emitImg, hne]
  · rw [formatItem_snd, htext]

/-- Witness for C6 at the spec's own example payload
`data:image/png;base64,AAA=BBB`: the stored payload is
`data:image/png;base64,AAA=` and the text is untouched. -/
theorem C6_inline_keep_truncation_witness :
    ((formatItem true extC itemKeepTrunc).1.elements.images.get? 0).map Image.base64
      = some (some ("data:image/png;base64,AAA=".toList)) ∧
    (formatItem true extC itemKeepTrunc).1.text = itemKeepTrunc.text := by
  have h := C6_inline_keep_truncation extC itemKeepTrunc 0
    "data:image/png;base64,AAA=BBB".toList [] (by decide) (by decide) (by decide)
  refine ⟨?_, h.2.1⟩
  rw [h.1]
  decide

end AlcheMark
